import Mathlib

set_option maxHeartbeats 1000000

namespace FigmaExtract

/-- An entry of an INSTANCE node's overrides array.  In the source
(`processNodeWithExtractors`, lines 83-88) the array is any-typed
(`node.overrides as any[]`), so an entry may or may not carry a string `id`;
the id is therefore modelled as optional. -/
structure Override where
  id : Option String
deriving Repr

/-- A Figma document node as read by the traversal engine in `extractor.ts`
(`part_000`).  Only the fields the engine reads are modelled: `id`, `name`,
`type`, the visibility flag (`visible`, absent means visible), the `overrides`
array of INSTANCE nodes, and the `children` array.  An absent `children` or
`overrides` field is modelled as the empty list: the engine only ever tests
these fields through `hasValue` combined with a nonempty-length check
(lines 78, 93, 145), and the one bare `hasValue("overrides", node)` test
(line 82) sits on a path that `shouldTraverseChildren` only reaches when the
overrides array is nonempty, so an absent field and an empty array are
indistinguishable to the engine. -/
inductive RawNode where
| mk (id : String) (name : String) (type : String) (visible : Option Bool)
    (overrides : List Override) (children : List RawNode)
deriving Repr

def RawNode.id : RawNode → String
| .mk i _ _ _ _ _ => i

def RawNode.name : RawNode → String
| .mk _ n _ _ _ _ => n

def RawNode.type : RawNode → String
| .mk _ _ t _ _ _ => t

def RawNode.visible : RawNode → Option Bool
| .mk _ _ _ v _ _ => v

def RawNode.overrides : RawNode → List Override
| .mk _ _ _ _ o _ => o

def RawNode.children : RawNode → List RawNode
| .mk _ _ _ _ _ c => c

/-- The style table held in `GlobalVars.styles`: a mapping from generated
style keys to canonical style values, modelled as an association list. -/
abbrev Styles := List (String × String)

/-- The simplified output node: the base fields `id`, `name`, `type` set by the
engine, the extra fields contributed by extractors (as an association list),
and an optional children list (`result.children` is only assigned when at
least one child survives). -/
inductive SimplifiedNode where
| mk (id : String) (name : String) (type : String)
    (extra : List (String × String)) (children : Option (List SimplifiedNode))
deriving Repr

def SimplifiedNode.id : SimplifiedNode → String
| .mk i _ _ _ _ => i

def SimplifiedNode.name : SimplifiedNode → String
| .mk _ n _ _ _ => n

def SimplifiedNode.type : SimplifiedNode → String
| .mk _ _ t _ _ => t

def SimplifiedNode.extra : SimplifiedNode → List (String × String)
| .mk _ _ _ e _ => e

def SimplifiedNode.children : SimplifiedNode → Option (List SimplifiedNode)
| .mk _ _ _ _ c => c

/-- Replace the extra (extractor-contributed) fields of a node in progress. -/
def SimplifiedNode.setExtra : SimplifiedNode → List (String × String) → SimplifiedNode
| .mk i n t _ c, e => .mk i n t e c

/-- Assign `result.children` (line 103 of the source). -/
def SimplifiedNode.setChildren : SimplifiedNode → List SimplifiedNode → SimplifiedNode
| .mk i n t e _, cs => .mk i n t e (some cs)

/-- Traversal options (`TraversalOptions` in `types.ts`): `maxDepth`,
`nodeFilter` and `includeFullInstanceData`, each optional as in the source. -/
structure TraversalOptions where
  maxDepth : Option Nat := none
  nodeFilter : Option (RawNode → Bool) := none
  includeFullInstanceData : Option Bool := none

/-- The context threaded through one pass (`TraversalContext` in `types.ts`):
the mutable style table of `globalVars`, the current depth, and the parent
back-reference.  The options travel alongside as a separate argument, exactly
as the source passes both `context` and `options`. -/
structure TraversalContext where
  styles : Styles
  currentDepth : Nat
  parent : Option RawNode

/-- An extractor (`ExtractorFn` in `types.ts`): per the extractor contract it
reads the raw node, the output node in progress and the context, and
contributes named fields to the output node and/or entries to the style table.
It is modelled as returning the new extra-field list of the output node and
the new style table. -/
def ExtractorFn : Type :=
  RawNode → SimplifiedNode → TraversalContext → List (String × String) × Styles

/-- Modelled from the spec: `isVisible` comes from `utils/common.js`, which is
not among the sources.  Per the spec a node whose visibility flag is false is
excluded, and a node without the flag is visible, so `isVisible` is the
visibility flag with default `true`. -/
def isVisible (n : RawNode) : Bool :=
  n.visible.getD true

/-- Direct translation of `shouldProcessNode` (lines 114-126): skip invisible
nodes, then apply the custom node filter if provided. -/
def shouldProcessNode (n : RawNode) (options : TraversalOptions) : Bool :=
  if !isVisible n then
    false
  else
    match options.nodeFilter with
    | some f => f n
    | none => true

/-- Direct translation of `shouldTraverseChildren` (lines 131-154): stop at the
depth limit; for INSTANCE nodes without `includeFullInstanceData`, traverse
only when the overrides array is nonempty. -/
def shouldTraverseChildren (n : RawNode) (currentDepth : Nat)
    (options : TraversalOptions) : Bool :=
  if (options.maxDepth.map (fun d => decide (currentDepth ≥ d))).getD false then
    false
  else if n.type == "INSTANCE" && !(options.includeFullInstanceData.getD false) then
    !n.overrides.isEmpty
  else
    true

/-- JavaScript `id.split(";")` over the characters of the id: the runs of
characters between occurrences of the separator, in order, as strings. -/
def splitOnChar (sep : Char) : List Char → List (List Char)
| [] => [[]]
| c :: rest =>
  match splitOnChar sep rest with
  | [] => [[]]
  | h :: t => if c == sep then [] :: h :: t else (c :: h) :: t

/-- The per-override target computation of line 86 of the source:
`override.id.includes(";") ? override.id.split(";")[1] : override.id`.
`includes` is membership of the separator among the id's characters, and
`split(";")[1]` is the second field of the split (an out-of-range index would
be `undefined`, but when the separator occurs the split has at least two
fields). -/
def overrideTargetId (oid : String) : String :=
  if oid.data.contains ';' then
    ((splitOnChar ';' oid.data).map String.mk).getD 1 ""
  else oid

/-- The `overrides.map` of lines 83-88.  Reading `override.id` on an entry
without an id string is the property access that throws a TypeError in
JavaScript, so it is modelled in `Except`. -/
def getOverrideTargets : List Override → Except String (List String)
| [] => .ok []
| o :: rest =>
  match o.id with
  | none => .error "TypeError: cannot read id of override entry"
  | some oid =>
    match getOverrideTargets rest with
    | .error e => .error e
    | .ok ts => .ok (overrideTargetId oid :: ts)

/-- The extractor for-loop of lines 65-67: apply each extractor in order to
the same (node, result, context) triple, accumulating the result's extra
fields and the shared style table. -/
def applyExtractors (extractors : List ExtractorFn) (n : RawNode)
    (r : SimplifiedNode) (currentDepth : Nat) (parent : Option RawNode)
    (g : Styles) : SimplifiedNode × Styles :=
  match extractors with
  | [] => (r, g)
  | e :: rest =>
    let (extra, g1) := e n r ⟨g, currentDepth, parent⟩
    applyExtractors rest n (r.setExtra extra) currentDepth parent g1

/-- The instance-pruning filter of lines 90-94: keep a child whose id matches
an override target, or a child that itself has a nonempty children array. -/
def instanceChildFilter (targets : List String) (c : RawNode) : Bool :=
  targets.contains c.id || !c.children.isEmpty

/-- The base metadata object of lines 58-62: id and name copied from the raw
node, and the type with the VECTOR to IMAGE-SVG normalization; no extra
fields and no children yet. -/
def baseNode (n : RawNode) : SimplifiedNode :=
  .mk n.id n.name (if n.type == "VECTOR" then "IMAGE-SVG" else n.type) [] none

/-- The computation of `childrenToProcess` at lines 79-95, expressed as the
predicate the children list is filtered with: for an INSTANCE node without
`includeFullInstanceData` and with a (nonempty) overrides array, the
instance-pruning filter built from the override targets (this is where the
any-typed `override.id` access can throw); for every other node, the constant
true predicate (childrenToProcess = node.children). -/
def childKeepFilter (n : RawNode) (options : TraversalOptions) :
    Except String (RawNode → Bool) :=
  if n.type == "INSTANCE" && !(options.includeFullInstanceData.getD false)
      && !n.overrides.isEmpty then
    match getOverrideTargets n.overrides with
    | .error e => .error e
    | .ok targets => .ok (instanceChildFilter targets)
  else
    .ok (fun _ => true)

mutual

/-- Direct translation of `processNodeWithExtractors` (lines 47-109).
Returns `none` for a node rejected by `shouldProcessNode` (the `null` of the
source); the style table is threaded explicitly in place of the in-place
mutation of `context.globalVars`; a JavaScript exception is an `Except.error`.
The filter producing `childrenToProcess` is passed to the sibling pipeline as
the `keep` predicate instead of being applied beforehand, so that the
recursion is structural; filtering by `keep` and then by `shouldProcessNode`
is the same as skipping each child that fails either test. -/
def processNodeWithExtractors (n : RawNode) (extractors : List ExtractorFn)
    (currentDepth : Nat) (parent : Option RawNode) (options : TraversalOptions)
    (g : Styles) : Except String (Option SimplifiedNode × Styles) :=
  if !shouldProcessNode n options then
    .ok (none, g)
  else
    let r := (applyExtractors extractors n (baseNode n) currentDepth parent g).1
    let g1 := (applyExtractors extractors n (baseNode n) currentDepth parent g).2
    if shouldTraverseChildren n currentDepth options then
      if !n.children.isEmpty then
        match childKeepFilter n options with
        | .error e => .error e
        | .ok keep =>
          match processChildrenList n.children keep extractors
              (currentDepth + 1) (some n) options g1 with
          | .error e => .error e
          | .ok (children, g2) =>
            if children.isEmpty then
              .ok (some r, g2)
            else
              .ok (some (r.setChildren children), g2)
      else
        .ok (some r, g1)
    else
      .ok (some r, g1)
termination_by sizeOf n
decreasing_by
  all_goals cases n
  all_goals simp_all [RawNode.children]

/-- The filter/map/filter pipeline applied to a list of sibling nodes
(lines 33-36 for the roots, lines 97-100 for children): drop nodes that fail
the `keep` predicate (the `childrenToProcess` filter) or `shouldProcessNode`,
process the rest in order, and drop `null` results. -/
def processChildrenList (cs : List RawNode) (keep : RawNode → Bool)
    (extractors : List ExtractorFn) (currentDepth : Nat)
    (parent : Option RawNode) (options : TraversalOptions)
    (g : Styles) : Except String (List SimplifiedNode × Styles) :=
  match cs with
  | [] => .ok ([], g)
  | c :: rest =>
    if keep c && shouldProcessNode c options then
      match processNodeWithExtractors c extractors currentDepth parent
          options g with
      | .error e => .error e
      | .ok (rOpt, g1) =>
        match processChildrenList rest keep extractors currentDepth parent
            options g1 with
        | .error e => .error e
        | .ok (rs, g2) =>
          match rOpt with
          | some s => .ok (s :: rs, g2)
          | none => .ok (rs, g2)
    else
      processChildrenList rest keep extractors currentDepth parent options g
termination_by sizeOf cs
decreasing_by
  all_goals simp
  all_goals omega

end

/-- Direct translation of `extractFromDesign` (lines 21-42): process the root
nodes at depth 0 with no parent and no instance filter, starting from the
caller-supplied style table, and return the surviving simplified nodes with
the final table. -/
def extractFromDesign (nodes : List RawNode) (extractors : List ExtractorFn)
    (options : TraversalOptions) (g : Styles) :
    Except String (List SimplifiedNode × Styles) :=
  processChildrenList nodes (fun _ => true) extractors 0 none options g

/-! Basic simp lemmas about the record accessors and builders. -/

@[simp] theorem RawNode.id_mk (i nm t v o c) :
    (RawNode.mk i nm t v o c).id = i := rfl

@[simp] theorem RawNode.name_mk (i nm t v o c) :
    (RawNode.mk i nm t v o c).name = nm := rfl

@[simp] theorem RawNode.type_mk (i nm t v o c) :
    (RawNode.mk i nm t v o c).type = t := rfl

@[simp] theorem RawNode.visible_mk (i nm t v o c) :
    (RawNode.mk i nm t v o c).visible = v := rfl

@[simp] theorem RawNode.overrides_mk (i nm t v o c) :
    (RawNode.mk i nm t v o c).overrides = o := rfl

@[simp] theorem RawNode.children_mk (i nm t v o c) :
    (RawNode.mk i nm t v o c).children = c := rfl

@[simp] theorem SimplifiedNode.id_setExtra (r : SimplifiedNode) (e) :
    (r.setExtra e).id = r.id := by cases r; rfl

@[simp] theorem SimplifiedNode.name_setExtra (r : SimplifiedNode) (e) :
    (r.setExtra e).name = r.name := by cases r; rfl

@[simp] theorem SimplifiedNode.type_setExtra (r : SimplifiedNode) (e) :
    (r.setExtra e).type = r.type := by cases r; rfl

@[simp] theorem SimplifiedNode.children_setExtra (r : SimplifiedNode) (e) :
    (r.setExtra e).children = r.children := by cases r; rfl

@[simp] theorem SimplifiedNode.id_setChildren (r : SimplifiedNode) (cs) :
    (r.setChildren cs).id = r.id := by cases r; rfl

@[simp] theorem SimplifiedNode.name_setChildren (r : SimplifiedNode) (cs) :
    (r.setChildren cs).name = r.name := by cases r; rfl

@[simp] theorem SimplifiedNode.type_setChildren (r : SimplifiedNode) (cs) :
    (r.setChildren cs).type = r.type := by cases r; rfl

@[simp] theorem SimplifiedNode.children_setChildren (r : SimplifiedNode) (cs) :
    (r.setChildren cs).children = some cs := by cases r; rfl

@[simp] theorem baseNode_id (n : RawNode) : (baseNode n).id = n.id := by
  simp [baseNode, SimplifiedNode.id]

@[simp] theorem baseNode_name (n : RawNode) : (baseNode n).name = n.name := by
  simp [baseNode, SimplifiedNode.name]

@[simp] theorem baseNode_type (n : RawNode) :
    (baseNode n).type = (if n.type == "VECTOR" then "IMAGE-SVG" else n.type) := by
  simp [baseNode, SimplifiedNode.type]

@[simp] theorem baseNode_children (n : RawNode) : (baseNode n).children = none := by
  simp [baseNode, SimplifiedNode.children]

/-- Structural induction principle for the nested inductive `RawNode`: to
prove a property of every node it suffices to prove it for a node assuming it
for each of its children. -/
theorem RawNode.inductionOn {P : RawNode → Prop}
    (ind : ∀ i nm t v o cs, (∀ c ∈ cs, P c) → P (.mk i nm t v o cs)) :
    ∀ n, P n
  | .mk i nm t v o cs =>
    ind i nm t v o cs (fun c hc =>
      have : sizeOf c < sizeOf (RawNode.mk i nm t v o cs) := by
        have hlt := List.sizeOf_lt_of_mem hc
        simp
        omega
      RawNode.inductionOn ind c)
termination_by n => sizeOf n

/-- Applying the extractor loop changes only the extra fields and the style
table: the base fields and the children of the node in progress survive. -/
theorem applyExtractors_fields (extractors : List ExtractorFn) (n : RawNode)
    (r : SimplifiedNode) (d : Nat) (p : Option RawNode) (g : Styles) :
    (applyExtractors extractors n r d p g).1.id = r.id ∧
    (applyExtractors extractors n r d p g).1.name = r.name ∧
    (applyExtractors extractors n r d p g).1.type = r.type ∧
    (applyExtractors extractors n r d p g).1.children = r.children := by
  induction extractors generalizing r g with
  | nil => simp [applyExtractors]
  | cons e rest ih =>
    simp only [applyExtractors]
    have := ih (r.setExtra (e n r ⟨g, d, p⟩).1) (e n r ⟨g, d, p⟩).2
    simp_all


/-! Shape lemmas about one step of `processNodeWithExtractors`. -/

/-- A node rejected by `shouldProcessNode` is dropped: the result is `null`
and the style table is untouched (lines 53-55) — in particular no extractor
runs on it. -/
theorem processNode_of_not_processed (n : RawNode) (ext : List ExtractorFn)
    (d : Nat) (p : Option RawNode) (opts : TraversalOptions) (g : Styles)
    (h : shouldProcessNode n opts = false) :
    processNodeWithExtractors n ext d p opts g = .ok (none, g) := by
  rw [processNodeWithExtractors]
  simp [h]

/-- A retained node whose children are not traversed is emitted with exactly
the extractor results and no children assignment. -/
theorem processNode_of_no_traverse (n : RawNode) (ext : List ExtractorFn)
    (d : Nat) (p : Option RawNode) (opts : TraversalOptions) (g : Styles)
    (h : shouldProcessNode n opts = true)
    (h2 : shouldTraverseChildren n d opts = false) :
    processNodeWithExtractors n ext d p opts g =
      .ok (some (applyExtractors ext n (baseNode n) d p g).1,
        (applyExtractors ext n (baseNode n) d p g).2) := by
  rw [processNodeWithExtractors]
  simp [h, h2]

/-- A retained node whose children are traversed through a known keep filter:
the emission is determined by the sibling pipeline on its children. -/
theorem processNode_of_traverse (n : RawNode) (ext : List ExtractorFn)
    (d : Nat) (p : Option RawNode) (opts : TraversalOptions) (g : Styles)
    (keep : RawNode → Bool)
    (h : shouldProcessNode n opts = true)
    (h2 : shouldTraverseChildren n d opts = true)
    (h3 : n.children.isEmpty = false)
    (h4 : childKeepFilter n opts = .ok keep) :
    processNodeWithExtractors n ext d p opts g =
      match processChildrenList n.children keep ext (d + 1) (some n) opts
          (applyExtractors ext n (baseNode n) d p g).2 with
      | .error e => .error e
      | .ok (rs, g2) =>
        if rs.isEmpty then
          .ok (some (applyExtractors ext n (baseNode n) d p g).1, g2)
        else
          .ok (some (((applyExtractors ext n (baseNode n) d p g).1).setChildren rs), g2)
      := by
  rw [processNodeWithExtractors]
  simp [h, h2, h3, h4]

/-- Inversion for a successful emission: the node passed `shouldProcessNode`,
and the emitted node is either exactly the extractor output on the base
metadata (no children assigned) or that output plus a nonempty children list
produced by the sibling pipeline on the node's children. -/
theorem processNode_ok_cases (n : RawNode) (ext : List ExtractorFn) (d : Nat)
    (p : Option RawNode) (opts : TraversalOptions) (g : Styles)
    (r : SimplifiedNode) (g2 : Styles)
    (h : processNodeWithExtractors n ext d p opts g = .ok (some r, g2)) :
    shouldProcessNode n opts = true ∧
    (r = (applyExtractors ext n (baseNode n) d p g).1 ∨
      ∃ keep rs,
        shouldTraverseChildren n d opts = true ∧
        childKeepFilter n opts = .ok keep ∧
        processChildrenList n.children keep ext (d + 1) (some n) opts
          (applyExtractors ext n (baseNode n) d p g).2 = .ok (rs, g2) ∧
        rs ≠ [] ∧
        r = ((applyExtractors ext n (baseNode n) d p g).1).setChildren rs) := by
  by_cases hsp : shouldProcessNode n opts
  case neg =>
    rw [processNode_of_not_processed n ext d p opts g (by simpa using hsp)] at h
    simp at h
  case pos =>
    refine ⟨hsp, ?_⟩
    by_cases htr : shouldTraverseChildren n d opts
    case neg =>
      rw [processNode_of_no_traverse n ext d p opts g hsp (by simpa using htr)] at h
      simp at h
      left
      exact h.1.symm
    case pos =>
      by_cases hne : n.children.isEmpty
      case pos =>
        rw [processNodeWithExtractors] at h
        simp [hsp, htr, hne] at h
        left
        exact h.1.symm
      case neg =>
        cases hk : childKeepFilter n opts with
        | error e =>
          rw [processNodeWithExtractors] at h
          simp [hsp, htr, hne, hk] at h
        | ok keep =>
          rw [processNode_of_traverse n ext d p opts g keep hsp htr
            (by simpa using hne) hk] at h
          cases hcl : processChildrenList n.children keep ext (d + 1) (some n)
              opts (applyExtractors ext n (baseNode n) d p g).2 with
          | error e => rw [hcl] at h; simp at h
          | ok pr =>
            obtain ⟨rs, gl⟩ := pr
            rw [hcl] at h
            by_cases hrs : rs.isEmpty
            · simp [hrs] at h
              left
              exact h.1.symm
            · simp [hrs] at h
              right
              refine ⟨keep, rs, htr, rfl, ?_, by simpa using hrs, h.1.symm⟩
              rw [hcl, h.2]

/-- A node that passes `shouldProcessNode` is always emitted when the pass
does not throw: a successful result on it is never `null`. -/
theorem processNode_some_of_processed (n : RawNode) (ext : List ExtractorFn)
    (d : Nat) (p : Option RawNode) (opts : TraversalOptions) (g : Styles)
    (res : Option SimplifiedNode) (g2 : Styles)
    (hsp : shouldProcessNode n opts = true)
    (h : processNodeWithExtractors n ext d p opts g = .ok (res, g2)) :
    ∃ r, res = some r := by
  by_cases htr : shouldTraverseChildren n d opts
  case neg =>
    rw [processNode_of_no_traverse n ext d p opts g hsp (by simpa using htr)] at h
    simp at h
    exact ⟨_, h.1.symm⟩
  case pos =>
    by_cases hne : n.children.isEmpty
    case pos =>
      rw [processNodeWithExtractors] at h
      simp [hsp, htr, hne] at h
      exact ⟨_, h.1.symm⟩
    case neg =>
      cases hk : childKeepFilter n opts with
      | error e =>
        rw [processNodeWithExtractors] at h
        simp [hsp, htr, hne, hk] at h
      | ok keep =>
        rw [processNode_of_traverse n ext d p opts g keep hsp htr
          (by simpa using hne) hk] at h
        cases hcl : processChildrenList n.children keep ext (d + 1) (some n)
            opts (applyExtractors ext n (baseNode n) d p g).2 with
        | error e => rw [hcl] at h; simp at h
        | ok pr =>
          obtain ⟨rs, gl⟩ := pr
          rw [hcl] at h
          by_cases hrs : rs.isEmpty
          · simp [hrs] at h
            exact ⟨_, h.1.symm⟩
          · simp [hrs] at h
            exact ⟨_, h.1.symm⟩

/-- Every successfully emitted node carries the base fields of its raw node:
the same id, the same name, and the type with the VECTOR normalization; and
its children field is never an empty list. -/
theorem processNode_fields (n : RawNode) (ext : List ExtractorFn) (d : Nat)
    (p : Option RawNode) (opts : TraversalOptions) (g : Styles)
    (r : SimplifiedNode) (g2 : Styles)
    (h : processNodeWithExtractors n ext d p opts g = .ok (some r, g2)) :
    r.id = n.id ∧ r.name = n.name ∧
    r.type = (if n.type == "VECTOR" then "IMAGE-SVG" else n.type) ∧
    r.children ≠ some [] := by
  have hfields := applyExtractors_fields ext n (baseNode n) d p g
  obtain ⟨-, hcase⟩ := processNode_ok_cases n ext d p opts g r g2 h
  cases hcase with
  | inl hr =>
    rw [hr]
    simp_all
  | inr hr =>
    obtain ⟨keep, rs, -, -, -, hrs, hr⟩ := hr
    rw [hr]
    simp_all



/-! Collectors used to state the visibility and depth claims. -/

mutual

/-- All ids reachable in a raw tree through visible nodes only: an invisible
node contributes nothing, and neither does anything below it, even a visible
descendant. -/
def visibleIds (n : RawNode) : List String :=
  if isVisible n then n.id :: visibleIdsList n.children else []
termination_by sizeOf n
decreasing_by
  all_goals cases n
  all_goals simp_all [RawNode.children]

/-- List version of `visibleIds`. -/
def visibleIdsList (cs : List RawNode) : List String :=
  match cs with
  | [] => []
  | c :: rest => visibleIds c ++ visibleIdsList rest
termination_by sizeOf cs
decreasing_by
  all_goals simp
  all_goals omega

end

mutual

/-- All ids appearing anywhere in an emitted simplified tree. -/
def outIds (s : SimplifiedNode) : List String :=
  s.id :: outIdsList (s.children.getD [])
termination_by sizeOf s
decreasing_by
  all_goals cases s
  all_goals rename_i cs
  all_goals cases cs
  all_goals simp_all [SimplifiedNode.children]
  all_goals omega

/-- List version of `outIds`. -/
def outIdsList (ss : List SimplifiedNode) : List String :=
  match ss with
  | [] => []
  | s :: rest => outIds s ++ outIdsList rest
termination_by sizeOf ss
decreasing_by
  all_goals simp
  all_goals omega

end

mutual

/-- Emitted-tree depth bound: `depthClipped k s` says that no node deeper
than `k` levels below `s` exists, because every node exactly `k` levels down
carries no children field. -/
def depthClipped (k : Nat) (s : SimplifiedNode) : Bool :=
  match k, s with
  | 0, .mk _ _ _ _ cs => cs.isNone
  | _ + 1, .mk _ _ _ _ none => true
  | k + 1, .mk _ _ _ _ (some cs) => depthClippedList k cs
termination_by sizeOf s
decreasing_by
  all_goals simp
  all_goals omega

/-- List version of `depthClipped`. -/
def depthClippedList (k : Nat) (ss : List SimplifiedNode) : Bool :=
  match ss with
  | [] => true
  | s :: rest => depthClipped k s && depthClippedList k rest
termination_by sizeOf ss
decreasing_by
  all_goals simp
  all_goals omega

end

theorem visibleIdsList_nil : visibleIdsList [] = [] := by
  rw [visibleIdsList]

theorem visibleIdsList_cons (c : RawNode) (rest : List RawNode) :
    visibleIdsList (c :: rest) = visibleIds c ++ visibleIdsList rest := by
  rw [visibleIdsList]

theorem outIdsList_nil : outIdsList [] = [] := by
  rw [outIdsList]

theorem outIdsList_cons (s : SimplifiedNode) (rest : List SimplifiedNode) :
    outIdsList (s :: rest) = outIds s ++ outIdsList rest := by
  rw [outIdsList]

/-- Membership in the id collection of a forest comes from one of its trees. -/
theorem outIdsList_mem (ss : List SimplifiedNode) (x : String) :
    x ∈ outIdsList ss ↔ ∃ s ∈ ss, x ∈ outIds s := by
  induction ss with
  | nil => simp [outIdsList_nil]
  | cons s rest ih => simp [outIdsList_cons, ih]

/-- The visible ids of a forest member are visible ids of the forest. -/
theorem visibleIds_subset_list (c : RawNode) (cs : List RawNode) (hc : c ∈ cs)
    (x : String) (hx : x ∈ visibleIds c) : x ∈ visibleIdsList cs := by
  induction cs with
  | nil => cases hc
  | cons c0 rest ih =>
    rw [visibleIdsList_cons]
    rcases List.mem_cons.mp hc with h | h
    · subst h
      exact List.mem_append_left _ hx
    · exact List.mem_append_right _ (ih h)

theorem depthClipped_of_none (k : Nat) (s : SimplifiedNode)
    (h : s.children = none) : depthClipped k s = true := by
  cases s with
  | mk i nm t e cs =>
    simp [SimplifiedNode.children] at h
    subst h
    cases k with
    | zero => rw [depthClipped]; rfl
    | succ k => rw [depthClipped]

theorem depthClipped_of_some (k : Nat) (s : SimplifiedNode)
    (rs : List SimplifiedNode) (h : s.children = some rs) :
    depthClipped (k + 1) s = depthClippedList k rs := by
  cases s with
  | mk i nm t e cs =>
    simp [SimplifiedNode.children] at h
    subst h
    rw [depthClipped]

theorem depthClippedList_forall (k : Nat) (ss : List SimplifiedNode) :
    depthClippedList k ss = true ↔ ∀ s ∈ ss, depthClipped k s = true := by
  induction ss with
  | nil => simp [depthClippedList]
  | cons s rest ih =>
    rw [depthClippedList]
    simp [ih]

/-- A node that passes `shouldProcessNode` is visible. -/
theorem isVisible_of_shouldProcess (n : RawNode) (opts : TraversalOptions)
    (h : shouldProcessNode n opts = true) : isVisible n = true := by
  by_contra hv
  simp [shouldProcessNode, Bool.not_eq_true] at hv h
  rw [hv] at h
  simp at h

/-- Under a finite depth limit, children are only traversed strictly below
the limit. -/
theorem depth_lt_of_traverse (n : RawNode) (d : Nat) (opts : TraversalOptions)
    (m : Nat) (hm : opts.maxDepth = some m)
    (h : shouldTraverseChildren n d opts = true) : d < m := by
  by_contra hd
  simp [shouldTraverseChildren, hm, Nat.le_of_not_lt hd] at h



/-- One-step unfolding of the sibling pipeline on a cons cell. -/
theorem processChildrenList_cons_eq (c : RawNode) (rest : List RawNode)
    (keep : RawNode → Bool) (ext : List ExtractorFn) (d : Nat)
    (p : Option RawNode) (opts : TraversalOptions) (g : Styles) :
    processChildrenList (c :: rest) keep ext d p opts g =
      if keep c && shouldProcessNode c opts then
        match processNodeWithExtractors c ext d p opts g with
        | .error e => .error e
        | .ok (rOpt, g1) =>
          match processChildrenList rest keep ext d p opts g1 with
          | .error e => .error e
          | .ok (rs, g2) =>
            match rOpt with
            | some s => .ok (s :: rs, g2)
            | none => .ok (rs, g2)
      else
        processChildrenList rest keep ext d p opts g := by
  rw [processChildrenList]

theorem processChildrenList_nil_eq (keep : RawNode → Bool)
    (ext : List ExtractorFn) (d : Nat) (p : Option RawNode)
    (opts : TraversalOptions) (g : Styles) :
    processChildrenList [] keep ext d p opts g = .ok ([], g) := by
  rw [processChildrenList]

/-- Soundness of the sibling pipeline: every emitted sibling comes from a
member of the input list that passed both the keep filter and
`shouldProcessNode`, via a successful recursive emission at the same depth. -/
theorem processChildrenList_mem_ex (cs : List RawNode) (keep : RawNode → Bool)
    (ext : List ExtractorFn) (d : Nat) (p : Option RawNode)
    (opts : TraversalOptions) :
    ∀ g rs g2, processChildrenList cs keep ext d p opts g = .ok (rs, g2) →
    ∀ s ∈ rs, ∃ c ∈ cs, keep c = true ∧ shouldProcessNode c opts = true ∧
      ∃ g0 g1, processNodeWithExtractors c ext d p opts g0 = .ok (some s, g1) := by
  induction cs with
  | nil =>
    intro g rs g2 h s hs
    rw [processChildrenList_nil_eq] at h
    simp at h
    rw [h.1] at hs
    cases hs
  | cons c rest ih =>
    intro g rs g2 h s hs
    rw [processChildrenList_cons_eq] at h
    split at h
    case isTrue hc =>
      simp at hc
      split at h
      next e heq => simp at h
      next rOpt g1 heq =>
        split at h
        next e heq2 => simp at h
        next rs1 gl heq2 =>
          cases rOpt with
          | some s0 =>
            simp at h
            rw [← h.1] at hs
            rcases List.mem_cons.mp hs with hss | hss
            · subst hss
              exact ⟨c, List.mem_cons_self c rest, hc.1, hc.2, g, g1, heq⟩
            · obtain ⟨c1, hc1, hk1, hs1, w⟩ := ih g1 rs1 gl heq2 s hss
              exact ⟨c1, List.mem_cons_of_mem c hc1, hk1, hs1, w⟩
          | none =>
            simp at h
            rw [← h.1] at hs
            obtain ⟨c1, hc1, hk1, hs1, w⟩ := ih g1 rs1 gl heq2 s hs
            exact ⟨c1, List.mem_cons_of_mem c hc1, hk1, hs1, w⟩
    case isFalse hc =>
      obtain ⟨c1, hc1, hk1, hs1, w⟩ := ih g rs g2 h s hs
      exact ⟨c1, List.mem_cons_of_mem c hc1, hk1, hs1, w⟩

/-- Completeness of the sibling pipeline: a member that passes the keep
filter and `shouldProcessNode` is emitted (when the pipeline succeeds). -/
theorem processChildrenList_mem_included (cs : List RawNode)
    (keep : RawNode → Bool) (ext : List ExtractorFn) (d : Nat)
    (p : Option RawNode) (opts : TraversalOptions) (c : RawNode) (hc : c ∈ cs)
    (hk : keep c = true) (hsp : shouldProcessNode c opts = true) :
    ∀ g rs g2, processChildrenList cs keep ext d p opts g = .ok (rs, g2) →
    ∃ s ∈ rs, ∃ g0 g1,
      processNodeWithExtractors c ext d p opts g0 = .ok (some s, g1) := by
  induction cs with
  | nil => cases hc
  | cons c0 rest ih =>
    intro g rs g2 h
    rw [processChildrenList_cons_eq] at h
    rcases List.mem_cons.mp hc with hcc | hcc
    · subst hcc
      split at h
      case isFalse hcond => simp [hk, hsp] at hcond
      case isTrue hcond =>
        split at h
        next e heq => simp at h
        next rOpt g1 heq =>
          obtain ⟨s, hss⟩ :=
            processNode_some_of_processed c ext d p opts g rOpt g1 hsp heq
          subst hss
          split at h
          next e heq2 => simp at h
          next rs1 gl heq2 =>
            simp at h
            rw [← h.1]
            exact ⟨s, List.mem_cons_self s rs1, g, g1, heq⟩
    · split at h
      case isFalse hcond =>
        exact ih hcc g rs g2 h
      case isTrue hcond =>
        split at h
        next e heq => simp at h
        next rOpt g1 heq =>
          split at h
          next e heq2 => simp at h
          next rs1 gl heq2 =>
            obtain ⟨s, hss, w⟩ := ih hcc g1 rs1 gl heq2
            cases rOpt with
            | some s0 =>
              simp at h
              rw [← h.1]
              exact ⟨s, List.mem_cons_of_mem s0 hss, w⟩
            | none =>
              simp at h
              rw [← h.1]
              exact ⟨s, hss, w⟩



/-- Every id in an emitted tree is the id of an input node reachable through
visible nodes only: nothing inside an invisible subtree is ever emitted. -/
theorem processNode_outIds (n : RawNode) : ∀ ext d p opts g r g2,
    processNodeWithExtractors n ext d p opts g = .ok (some r, g2) →
    ∀ x ∈ outIds r, x ∈ visibleIds n := by
  induction n using RawNode.inductionOn with
  | ind i nm t v o cs IH =>
    intro ext d p opts g r g2 h x hx
    obtain ⟨hsp, hcase⟩ := processNode_ok_cases _ ext d p opts g r g2 h
    have hvis := isVisible_of_shouldProcess _ opts hsp
    have hfields := processNode_fields _ ext d p opts g r g2 h
    rw [visibleIds, if_pos hvis]
    rw [outIds] at hx
    rcases List.mem_cons.mp hx with hx | hx
    · rw [hx, hfields.1]
      exact List.mem_cons_self _ _
    · rcases hcase with hr | ⟨keep, rs, htr, hkf, hcl, hrs, hr⟩
      · have hch : r.children = none := by
          rw [hr, (applyExtractors_fields ext _ (baseNode _) d p g).2.2.2]
          exact baseNode_children _
        rw [hch] at hx
        rw [Option.getD_none, outIdsList_nil] at hx
        cases hx
      · have hch : r.children = some rs := by rw [hr]; simp
        rw [hch, Option.getD_some] at hx
        obtain ⟨s, hsrs, hxs⟩ := (outIdsList_mem rs x).mp hx
        obtain ⟨c, hccs, hk, hspc, g0, g1, hpn⟩ :=
          processChildrenList_mem_ex _ keep ext (d + 1) (some _) opts _ rs g2
            hcl s hsrs
        apply List.mem_cons_of_mem
        have hccs2 : c ∈ cs := by simpa using hccs
        have hxc := IH c hccs2 ext (d + 1) (some _) opts g0 s g1 hpn x hxs
        simpa using visibleIds_subset_list c cs hccs2 x hxc

/-- Under `maxDepth = m`, a node emitted at depth `d` has no descendant more
than `m - d` levels below it, and descendants exactly `m - d` levels down
carry no children field. -/
theorem processNode_depthClipped (n : RawNode) : ∀ ext d p opts g r g2 m,
    opts.maxDepth = some m →
    processNodeWithExtractors n ext d p opts g = .ok (some r, g2) →
    depthClipped (m - d) r = true := by
  induction n using RawNode.inductionOn with
  | ind i nm t v o cs IH =>
    intro ext d p opts g r g2 m hm h
    obtain ⟨hsp, hcase⟩ := processNode_ok_cases _ ext d p opts g r g2 h
    rcases hcase with hr | ⟨keep, rs, htr, hkf, hcl, hrs, hr⟩
    · apply depthClipped_of_none
      rw [hr, (applyExtractors_fields ext _ (baseNode _) d p g).2.2.2]
      exact baseNode_children _
    · have hd : d < m := depth_lt_of_traverse _ d opts m hm htr
      have hch : r.children = some rs := by rw [hr]; simp
      have hmd : m - d = (m - (d + 1)) + 1 := by omega
      rw [hmd, depthClipped_of_some _ r rs hch, depthClippedList_forall]
      intro s hs
      obtain ⟨c, hccs, hk, hspc, g0, g1, hpn⟩ :=
        processChildrenList_mem_ex _ keep ext (d + 1) (some _) opts _ rs g2
          hcl s hs
      exact IH c (by simpa using hccs) ext (d + 1) (some _) opts g0 s g1 m hm hpn

/-- Forest version of `processNode_outIds`. -/
theorem processChildrenList_outIds (cs : List RawNode) (keep : RawNode → Bool)
    (ext : List ExtractorFn) (d : Nat) (p : Option RawNode)
    (opts : TraversalOptions) (g : Styles) (rs : List SimplifiedNode)
    (g2 : Styles) (h : processChildrenList cs keep ext d p opts g = .ok (rs, g2)) :
    ∀ x ∈ outIdsList rs, x ∈ visibleIdsList cs := by
  intro x hx
  obtain ⟨s, hsrs, hxs⟩ := (outIdsList_mem rs x).mp hx
  obtain ⟨c, hccs, hk, hsp, g0, g1, hpn⟩ :=
    processChildrenList_mem_ex cs keep ext d p opts g rs g2 h s hsrs
  exact visibleIds_subset_list c cs hccs x
    (processNode_outIds c ext d p opts g0 s g1 hpn x hxs)

/-- Forest version of `processNode_depthClipped`. -/
theorem processChildrenList_depthClipped (cs : List RawNode)
    (keep : RawNode → Bool) (ext : List ExtractorFn) (d : Nat)
    (p : Option RawNode) (opts : TraversalOptions) (g : Styles)
    (rs : List SimplifiedNode) (g2 : Styles) (m : Nat)
    (hm : opts.maxDepth = some m)
    (h : processChildrenList cs keep ext d p opts g = .ok (rs, g2)) :
    ∀ s ∈ rs, depthClipped (m - d) s = true := by
  intro s hs
  obtain ⟨c, hccs, hk, hsp, g0, g1, hpn⟩ :=
    processChildrenList_mem_ex cs keep ext d p opts g rs g2 h s hs
  exact processNode_depthClipped c ext d p opts g0 s g1 m hm hpn



/-! Small evaluation helpers used to compute concrete runs step by step. -/

/-- A retained node with an empty children array is emitted as the extractor
output alone, with the style table the extractors produced. -/
theorem processNode_leaf_eval (n : RawNode) (ext : List ExtractorFn) (d : Nat)
    (p : Option RawNode) (opts : TraversalOptions) (g : Styles)
    (hsp : shouldProcessNode n opts = true) (hch : n.children = []) :
    processNodeWithExtractors n ext d p opts g =
      .ok (some (applyExtractors ext n (baseNode n) d p g).1,
        (applyExtractors ext n (baseNode n) d p g).2) := by
  rw [processNodeWithExtractors]
  simp [hsp, hch]

/-- A retained node whose children pipeline is already evaluated. -/
theorem processNode_node_eval (n : RawNode) (ext : List ExtractorFn) (d : Nat)
    (p : Option RawNode) (opts : TraversalOptions) (g : Styles)
    (keep : RawNode → Bool) (rs : List SimplifiedNode) (g2 : Styles)
    (hsp : shouldProcessNode n opts = true)
    (htr : shouldTraverseChildren n d opts = true)
    (hne : n.children.isEmpty = false)
    (hkf : childKeepFilter n opts = .ok keep)
    (hcl : processChildrenList n.children keep ext (d + 1) (some n) opts
      (applyExtractors ext n (baseNode n) d p g).2 = .ok (rs, g2)) :
    processNodeWithExtractors n ext d p opts g =
      (if rs.isEmpty then
        .ok (some (applyExtractors ext n (baseNode n) d p g).1, g2)
      else
        .ok (some (((applyExtractors ext n (baseNode n) d p g).1).setChildren
          rs), g2)) := by
  rw [processNode_of_traverse n ext d p opts g keep hsp htr hne hkf, hcl]

/-- Pipeline step for a member that is kept, processed and emitted. -/
theorem processChildrenList_step_some (c : RawNode) (rest : List RawNode)
    (keep : RawNode → Bool) (ext : List ExtractorFn) (d : Nat)
    (p : Option RawNode) (opts : TraversalOptions) (g : Styles)
    (s : SimplifiedNode) (g1 : Styles) (rs : List SimplifiedNode) (g2 : Styles)
    (hc : (keep c && shouldProcessNode c opts) = true)
    (hn : processNodeWithExtractors c ext d p opts g = .ok (some s, g1))
    (hrest : processChildrenList rest keep ext d p opts g1 = .ok (rs, g2)) :
    processChildrenList (c :: rest) keep ext d p opts g = .ok (s :: rs, g2) := by
  rw [processChildrenList_cons_eq, if_pos hc, hn]
  simp only [hrest]

/-- Pipeline step for a member that is filtered away. -/
theorem processChildrenList_step_skip (c : RawNode) (rest : List RawNode)
    (keep : RawNode → Bool) (ext : List ExtractorFn) (d : Nat)
    (p : Option RawNode) (opts : TraversalOptions) (g : Styles)
    (hc : (keep c && shouldProcessNode c opts) = false) :
    processChildrenList (c :: rest) keep ext d p opts g =
      processChildrenList rest keep ext d p opts g := by
  rw [processChildrenList_cons_eq, if_neg (by simp [hc])]

/-! Lemmas about instance pruning. -/

/-- When the instance conditions hold and every override id is readable, the
children filter is exactly the instance-pruning filter over the override
targets. -/
theorem childKeepFilter_instance (n : RawNode) (opts : TraversalOptions)
    (targets : List String)
    (hT : n.type = "INSTANCE")
    (hF : opts.includeFullInstanceData.getD false = false)
    (hO : n.overrides ≠ [])
    (hG : getOverrideTargets n.overrides = .ok targets) :
    childKeepFilter n opts = .ok (instanceChildFilter targets) := by
  have hOe : n.overrides.isEmpty = false := by
    cases hov : n.overrides with
    | nil => exact absurd hov hO
    | cons a b => rfl
  simp [childKeepFilter, hT, hF, hOe, hG]

/-- An INSTANCE node without full instance data traverses its children
exactly when its overrides array is nonempty (below the depth limit). -/
theorem shouldTraverseChildren_instance (n : RawNode) (d : Nat)
    (opts : TraversalOptions)
    (hT : n.type = "INSTANCE")
    (hF : opts.includeFullInstanceData.getD false = false)
    (hDepth : ∀ m ∈ opts.maxDepth, d < m) :
    shouldTraverseChildren n d opts = !n.overrides.isEmpty := by
  cases hmd : opts.maxDepth with
  | none => simp [shouldTraverseChildren, hmd, hT, hF]
  | some m =>
    have hdm : d < m := hDepth m (by simp [hmd])
    simp [shouldTraverseChildren, hmd, hT, hF, Nat.not_le.mpr hdm]

/-- An INSTANCE node with zero overrides and without full instance data is
emitted without any children field, no matter what its children are. -/
theorem processNode_instance_no_overrides (n : RawNode)
    (ext : List ExtractorFn) (d : Nat) (p : Option RawNode)
    (opts : TraversalOptions) (g : Styles)
    (hT : n.type = "INSTANCE")
    (hF : opts.includeFullInstanceData.getD false = false)
    (hO : n.overrides = [])
    (hsp : shouldProcessNode n opts = true) :
    ∃ r g1, processNodeWithExtractors n ext d p opts g = .ok (some r, g1) ∧
      r.children = none := by
  have htr : shouldTraverseChildren n d opts = false := by
    simp [shouldTraverseChildren, hT, hF, hO]
  refine ⟨_, _, processNode_of_no_traverse n ext d p opts g hsp htr, ?_⟩
  rw [(applyExtractors_fields ext n (baseNode n) d p g).2.2.2]
  exact baseNode_children n

/-- A child of a pruned INSTANCE node that passes the instance filter and the
node gates is present among the emitted children. -/
theorem processNode_instance_child_included (n : RawNode)
    (ext : List ExtractorFn) (d : Nat) (p : Option RawNode)
    (opts : TraversalOptions) (g : Styles) (r : SimplifiedNode) (g2 : Styles)
    (targets : List String) (c : RawNode)
    (hT : n.type = "INSTANCE")
    (hF : opts.includeFullInstanceData.getD false = false)
    (hO : n.overrides ≠ [])
    (hG : getOverrideTargets n.overrides = .ok targets)
    (hDepth : ∀ m ∈ opts.maxDepth, d < m)
    (hc : c ∈ n.children)
    (hkeep : instanceChildFilter targets c = true)
    (hspc : shouldProcessNode c opts = true)
    (h : processNodeWithExtractors n ext d p opts g = .ok (some r, g2)) :
    ∃ rs, r.children = some rs ∧ ∃ s ∈ rs, s.id = c.id := by
  have hsp : shouldProcessNode n opts = true := (processNode_ok_cases _ _ _ _ _ _ _ _ h).1
  have hOe : n.overrides.isEmpty = false := by
    cases hov : n.overrides with
    | nil => exact absurd hov hO
    | cons a b => rfl
  have htr : shouldTraverseChildren n d opts = true := by
    rw [shouldTraverseChildren_instance n d opts hT hF hDepth, hOe]
    rfl
  have hne : n.children.isEmpty = false := by
    cases hch : n.children with
    | nil => rw [hch] at hc; cases hc
    | cons a b => rfl
  have hkf := childKeepFilter_instance n opts targets hT hF hO hG
  rw [processNode_of_traverse n ext d p opts g _ hsp htr hne hkf] at h
  split at h
  next e heq => simp at h
  next rs1 gl heq =>
    obtain ⟨s, hss, g0, g1, hpn⟩ :=
      processChildrenList_mem_included n.children (instanceChildFilter targets)
        ext (d + 1) (some n) opts c hc hkeep hspc _ rs1 gl heq
    have hEmpty : rs1.isEmpty = false := by
      cases rs1 with
      | nil => cases hss
      | cons a b => rfl
    rw [hEmpty] at h
    simp at h
    refine ⟨rs1, ?_, s, hss, (processNode_fields c ext (d + 1) (some n) opts g0 s g1 hpn).1⟩
    rw [← h.1]
    simp

/-- Every emitted child of a pruned INSTANCE node corresponds to a raw child
that either matches an override target or itself has children: unrelated
childless children are dropped. -/
theorem processNode_instance_children_sound (n : RawNode)
    (ext : List ExtractorFn) (d : Nat) (p : Option RawNode)
    (opts : TraversalOptions) (g : Styles) (r : SimplifiedNode) (g2 : Styles)
    (targets : List String)
    (hT : n.type = "INSTANCE")
    (hF : opts.includeFullInstanceData.getD false = false)
    (hO : n.overrides ≠ [])
    (hG : getOverrideTargets n.overrides = .ok targets)
    (h : processNodeWithExtractors n ext d p opts g = .ok (some r, g2)) :
    ∀ rs, r.children = some rs → ∀ s ∈ rs, ∃ c ∈ n.children, s.id = c.id ∧
      (targets.contains c.id = true ∨ c.children ≠ []) := by
  intro rs hch s hs
  obtain ⟨hsp, hcase⟩ := processNode_ok_cases _ ext d p opts g r g2 h
  rcases hcase with hr | ⟨keep, rs1, htr, hkf, hcl, hrs1, hr⟩
  · exfalso
    rw [hr, (applyExtractors_fields ext n (baseNode n) d p g).2.2.2,
      baseNode_children n] at hch
    cases hch
  · have hkeq : keep = instanceChildFilter targets := by
      have := childKeepFilter_instance n opts targets hT hF hO hG
      rw [this] at hkf
      exact (Except.ok.inj hkf).symm
    have hrs : rs = rs1 := by
      rw [hr] at hch
      simp at hch
      exact hch.symm
    subst hrs
    subst hkeq
    obtain ⟨c, hccs, hk, hspc, g0, g1, hpn⟩ :=
      processChildrenList_mem_ex n.children _ ext (d + 1) (some n) opts _ rs g2
        hcl s hs
    refine ⟨c, hccs, (processNode_fields c ext (d + 1) (some n) opts g0 s g1 hpn).1, ?_⟩
    simp [instanceChildFilter] at hk
    rcases hk with hk | hk
    · exact Or.inl (by simpa using hk)
    · exact Or.inr hk


end FigmaExtract

namespace ErrorHandling

/-- The error categories of `ErrorType` in `error-handling.ts` (lines 6-26). -/
inductive ErrorType where
| NETWORK_ERROR
| TIMEOUT_ERROR
| API_ERROR
| RATE_LIMIT_ERROR
| AUTHENTICATION_ERROR
| NOT_FOUND_ERROR
| PERMISSION_ERROR
| PARSING_ERROR
| VALIDATION_ERROR
| UNKNOWN_ERROR
deriving DecidableEq, Repr

/-- The fields of `FigmaContextError` that `withRetry` consults: the
categorized type and the retryable flag (fixed at construction, either from
`options.retryable` or from `isRetryableByDefault`). -/
structure FigmaContextError where
  type : ErrorType
  retryable : Bool
deriving DecidableEq, Repr

/-- Direct translation of `isRetryableByDefault` (lines 66-74). -/
def isRetryableByDefault (t : ErrorType) : Bool :=
  [ErrorType.NETWORK_ERROR, ErrorType.TIMEOUT_ERROR,
    ErrorType.RATE_LIMIT_ERROR, ErrorType.API_ERROR].contains t

/-- Retry configuration (`RetryConfig`, lines 241-247).  The delay fields are
carried for fidelity but play no role in the retry decision itself. -/
structure RetryConfig where
  maxAttempts : Nat
  baseDelay : Nat
  maxDelay : Nat
  backoffFactor : Nat
  retryableErrors : List ErrorType

/-- Direct translation of `DEFAULT_RETRY_CONFIG` (lines 249-260). -/
def DEFAULT_RETRY_CONFIG : RetryConfig :=
  { maxAttempts := 3
    baseDelay := 1000
    maxDelay := 30000
    backoffFactor := 2
    retryableErrors := [ErrorType.NETWORK_ERROR, ErrorType.TIMEOUT_ERROR,
      ErrorType.RATE_LIMIT_ERROR, ErrorType.API_ERROR] }

/-- The caller-supplied partial configuration (`Partial<RetryConfig>`):
every field optional. -/
structure RetryConfigDelta where
  maxAttempts : Option Nat := none
  baseDelay : Option Nat := none
  maxDelay : Option Nat := none
  backoffFactor : Option Nat := none
  retryableErrors : Option (List ErrorType) := none

/-- The spread `{ ...DEFAULT_RETRY_CONFIG, ...config }` of line 270. -/
def mergeRetryConfig (c : RetryConfigDelta) : RetryConfig :=
  { maxAttempts := c.maxAttempts.getD DEFAULT_RETRY_CONFIG.maxAttempts
    baseDelay := c.baseDelay.getD DEFAULT_RETRY_CONFIG.baseDelay
    maxDelay := c.maxDelay.getD DEFAULT_RETRY_CONFIG.maxDelay
    backoffFactor := c.backoffFactor.getD DEFAULT_RETRY_CONFIG.backoffFactor
    retryableErrors := c.retryableErrors.getD DEFAULT_RETRY_CONFIG.retryableErrors }

/-- The attempt loop of `withRetry` (lines 273-325).  The operation is
modelled as the outcome it produces on each attempt number; its errors are
the already-categorized `FigmaContextError` values (`withRetry` routes any
other thrown value through the deterministic `categorizeError` first, line
284-286, so this loses no generality).  `last` models the `lastError`
variable, which is still unassigned (`none`) if the loop body never ran; a
thrown JavaScript error is `Except.error`.  On a failed attempt the loop
retries exactly when the attempt count is below `maxAttempts`, the error is
retryable, and its type is listed in `retryableErrors` (line 295-297);
otherwise it rethrows the last error (line 304); delays only pace the loop
and are not modelled. -/
def withRetryGo {α : Type} (op : Nat → Except FigmaContextError α)
    (cfg : RetryConfig) (last : Option FigmaContextError) (attempt : Nat) :
    Except (Option FigmaContextError) α :=
  if attempt ≤ cfg.maxAttempts then
    match op attempt with
    | .ok v => .ok v
    | .error e =>
      if attempt < cfg.maxAttempts && e.retryable &&
          cfg.retryableErrors.contains e.type then
        withRetryGo op cfg (some e) (attempt + 1)
      else
        .error (some e)
  else
    .error last
termination_by cfg.maxAttempts + 1 - attempt
decreasing_by
  simp_all
  omega

/-- Direct translation of `withRetry` (lines 265-326): merge the caller's
partial configuration over the defaults and run the loop from attempt 1 with
no last error recorded. -/
def withRetry {α : Type} (op : Nat → Except FigmaContextError α)
    (config : RetryConfigDelta) : Except (Option FigmaContextError) α :=
  withRetryGo op (mergeRetryConfig config) none 1

/-- The loop never looks at attempts outside `1..maxAttempts` (here: any two
operations that agree on the remaining attempt window drive the loop to the
same result). -/
theorem withRetryGo_congr {α : Type} (op1 op2 : Nat → Except FigmaContextError α)
    (cfg : RetryConfig) :
    ∀ fuel a last, cfg.maxAttempts + 1 - a ≤ fuel →
    (∀ i, a ≤ i → i ≤ cfg.maxAttempts → op1 i = op2 i) →
    withRetryGo op1 cfg last a = withRetryGo op2 cfg last a := by
  intro fuel
  induction fuel with
  | zero =>
    intro a last hf hagree
    have ha : ¬ a ≤ cfg.maxAttempts := by omega
    rw [withRetryGo, withRetryGo, if_neg ha, if_neg ha]
  | succ f ih =>
    intro a last hf hagree
    rw [withRetryGo, withRetryGo]
    by_cases ha : a ≤ cfg.maxAttempts
    · rw [if_pos ha, if_pos ha, hagree a le_rfl ha]
      cases op2 a with
      | ok v => rfl
      | error e =>
        simp only
        by_cases hcond : (decide (a < cfg.maxAttempts) && e.retryable &&
            cfg.retryableErrors.contains e.type) = true
        · rw [hcond, if_pos rfl, if_pos rfl]
          exact ih (a + 1) (some e) (by omega)
            (fun i hi1 hi2 => hagree i (by omega) hi2)
        · rw [Bool.not_eq_true] at hcond
          rw [hcond, if_neg (by simp), if_neg (by simp)]
    · rw [if_neg ha, if_neg ha]

/-- If attempts `a..k-1` all fail with retryable, listed errors and attempt
`k` succeeds, the loop started at `a` returns attempt `k`'s value. -/
theorem withRetryGo_first_success {α : Type}
    (op : Nat → Except FigmaContextError α) (cfg : RetryConfig) (k : Nat)
    (v : α) (hk : k ≤ cfg.maxAttempts) (hok : op k = .ok v) :
    ∀ fuel a last, k - a ≤ fuel → a ≤ k →
    (∀ i, a ≤ i → i < k → ∃ e, op i = .error e ∧ e.retryable = true ∧
      cfg.retryableErrors.contains e.type = true) →
    withRetryGo op cfg last a = .ok v := by
  intro fuel
  induction fuel with
  | zero =>
    intro a last hf ha hfail
    have hak : a = k := by omega
    subst hak
    rw [withRetryGo, if_pos hk, hok]
  | succ f ih =>
    intro a last hf ha hfail
    rcases Nat.eq_or_lt_of_le ha with hak | hak
    · subst hak
      rw [withRetryGo, if_pos hk, hok]
    · have haM : a ≤ cfg.maxAttempts := by omega
      have haMlt : a < cfg.maxAttempts := by omega
      obtain ⟨e, he, her, hec⟩ := hfail a le_rfl hak
      have hcond : (decide (a < cfg.maxAttempts) && e.retryable &&
          cfg.retryableErrors.contains e.type) = true := by
        simp only [Bool.and_eq_true, decide_eq_true_eq]
        exact ⟨⟨haMlt, her⟩, hec⟩
      rw [withRetryGo, if_pos haM, he]
      simp only [hcond, if_pos rfl]
      exact ih (a + 1) (some e) (by omega) hak
        (fun i hi1 hi2 => hfail i (by omega) hi2)

/-- If attempts `a..j-1` all fail with retryable, listed errors and attempt
`j` fails with an error on which the loop must stop (last attempt reached, or
a non-retryable error, or a type outside the configured list), the loop
started at `a` throws attempt `j`'s error. -/
theorem withRetryGo_stops {α : Type}
    (op : Nat → Except FigmaContextError α) (cfg : RetryConfig) (j : Nat)
    (e : FigmaContextError) (hj : j ≤ cfg.maxAttempts) (herr : op j = .error e)
    (hstop : (decide (j < cfg.maxAttempts) && e.retryable &&
      cfg.retryableErrors.contains e.type) = false) :
    ∀ fuel a last, j - a ≤ fuel → a ≤ j →
    (∀ i, a ≤ i → i < j → ∃ e0, op i = .error e0 ∧ e0.retryable = true ∧
      cfg.retryableErrors.contains e0.type = true) →
    withRetryGo op cfg last a = .error (some e) := by
  intro fuel
  induction fuel with
  | zero =>
    intro a last hf ha hfail
    have hak : a = j := by omega
    subst hak
    rw [withRetryGo, if_pos hj, herr]
    simp only [hstop]
    simp
  | succ f ih =>
    intro a last hf ha hfail
    rcases Nat.eq_or_lt_of_le ha with hak | hak
    · subst hak
      rw [withRetryGo, if_pos hj, herr]
      simp only [hstop]
      simp
    · have haM : a ≤ cfg.maxAttempts := by omega
      have haMlt : a < cfg.maxAttempts := by omega
      obtain ⟨e0, he, her, hec⟩ := hfail a le_rfl hak
      have hcond : (decide (a < cfg.maxAttempts) && e0.retryable &&
          cfg.retryableErrors.contains e0.type) = true := by
        simp only [Bool.and_eq_true, decide_eq_true_eq]
        exact ⟨⟨haMlt, her⟩, hec⟩
      rw [withRetryGo, if_pos haM, he]
      simp only [hcond, if_pos rfl]
      exact ih (a + 1) (some e0) (by omega) hak
        (fun i hi1 hi2 => hfail i (by omega) hi2)

end ErrorHandling


open FigmaExtract ErrorHandling

/-- Sample invisible subtree: an invisible frame with a visible child. -/
def sampleHidden : RawNode :=
  .mk "2" "hidden" "FRAME" (some false) [] [.mk "3" "shown" "TEXT" none [] []]

/-- Sample root holding the invisible subtree. -/
def sampleRoot : RawNode :=
  .mk "1" "root" "FRAME" none [] [sampleHidden]

/-- C1: for every input tree and every TraversalOptions, a RawNode whose
visibility flag is false is dropped together with its entire subtree:
processing it returns null and leaves the style table untouched (so no
extractor, of any configured list, is invoked on it or below it), and every
id in the output of extractFromDesign comes from a node reachable through
visible nodes only — so neither an invisible node nor any of its descendants,
even a visible one, ever appears in the output. -/
theorem c1_invisible_subtree_excluded :
    (∀ n ext d p opts g, isVisible n = false →
      processNodeWithExtractors n ext d p opts g = .ok (none, g)) ∧
    (∀ nodes ext opts g out g2,
      extractFromDesign nodes ext opts g = .ok (out, g2) →
      ∀ x ∈ outIdsList out, x ∈ visibleIdsList nodes) := by
  constructor
  · intro n ext d p opts g hv
    apply processNode_of_not_processed
    simp [shouldProcessNode, hv]
  · intro nodes ext opts g out g2 h x hx
    exact processChildrenList_outIds nodes _ ext 0 none opts g out g2 h x hx

/-- C1 witness at a concrete tree: the invisible node is dropped wholesale,
and the ids of the concrete run's output are ids of visible-path nodes. -/
theorem c1_invisible_subtree_excluded_witness :
    processNodeWithExtractors sampleHidden [] 0 none {} [] = .ok (none, []) ∧
    (∀ x ∈ outIdsList [SimplifiedNode.mk "1" "root" "FRAME" [] none],
      x ∈ visibleIdsList [sampleRoot]) := by
  constructor
  · exact c1_invisible_subtree_excluded.1 sampleHidden [] 0 none {} [] rfl
  · exact c1_invisible_subtree_excluded.2 [sampleRoot] [] {} []
      [SimplifiedNode.mk "1" "root" "FRAME" [] none] []
      (by simp [sampleRoot, sampleHidden, extractFromDesign,
        processChildrenList, processNodeWithExtractors, shouldProcessNode,
        shouldTraverseChildren, childKeepFilter, isVisible, applyExtractors,
        baseNode])

/-- Sample three-level chain for the depth bound. -/
def sampleChain : RawNode :=
  .mk "1" "a" "FRAME" none []
    [.mk "2" "b" "FRAME" none [] [.mk "3" "c" "TEXT" none [] []]]

/-- C2: with maxDepth = d, every root tree emitted by extractFromDesign is
depth-clipped at d — no emitted node lies deeper than d below its root, and
an emitted node at depth exactly d carries no children field (roots count as
depth 0) — while a node that reaches the bound and passes the gates is still
emitted, only without children. -/
theorem c2_depth_bound :
    (∀ nodes ext opts g out g2 m, opts.maxDepth = some m →
      extractFromDesign nodes ext opts g = .ok (out, g2) →
      ∀ s ∈ out, depthClipped m s = true) ∧
    (∀ n ext d p opts g m, opts.maxDepth = some m → m ≤ d →
      shouldProcessNode n opts = true →
      ∃ r g1, processNodeWithExtractors n ext d p opts g = .ok (some r, g1) ∧
        r.children = none) := by
  constructor
  · intro nodes ext opts g out g2 m hm h s hs
    have hd := processChildrenList_depthClipped nodes _ ext 0 none opts g out
      g2 m hm h s hs
    simpa using hd
  · intro n ext d p opts g m hm hd hsp
    have htr : shouldTraverseChildren n d opts = false := by
      simp [shouldTraverseChildren, hm, hd]
    refine ⟨_, _, processNode_of_no_traverse n ext d p opts g hsp htr, ?_⟩
    rw [(applyExtractors_fields ext n (baseNode n) d p g).2.2.2]
    exact baseNode_children n

/-- C2 witness at a concrete chain with maxDepth = 1: the run emits the root
with its depth-1 child and stops there, and a node at the bound is still
emitted without children. -/
theorem c2_depth_bound_witness :
    (∀ s ∈ [SimplifiedNode.mk "1" "a" "FRAME" []
        (some [SimplifiedNode.mk "2" "b" "FRAME" [] none])],
      depthClipped 1 s = true) ∧
    (∃ r g1, processNodeWithExtractors sampleChain [] 1 none
        { maxDepth := some 1 } [] = .ok (some r, g1) ∧ r.children = none) := by
  constructor
  · exact c2_depth_bound.1 [sampleChain] [] { maxDepth := some 1 } [] _ [] 1
      rfl
      (by simp [sampleChain, extractFromDesign, processChildrenList,
        processNodeWithExtractors, shouldProcessNode, shouldTraverseChildren,
        childKeepFilter, isVisible, applyExtractors, baseNode,
        SimplifiedNode.setChildren])
  · exact c2_depth_bound.2 sampleChain [] 1 none { maxDepth := some 1 } [] 1
      rfl (by omega) rfl

/-- Sample INSTANCE node with one override targeting child X, one unrelated
leaf child Y, and one unrelated child Z that itself has a child. -/
def sampleInstance : RawNode :=
  .mk "I1" "widget" "INSTANCE" none [Override.mk (some "I1:2;X")]
    [.mk "X" "over" "TEXT" none [] [],
     .mk "Y" "leaf" "TEXT" none [] [],
     .mk "Z" "cont" "FRAME" none [] [.mk "W" "w" "TEXT" none [] []]]

/-- Sample INSTANCE node with zero overrides. -/
def sampleInstanceNoOverrides : RawNode :=
  .mk "I0" "widget0" "INSTANCE" none [] [.mk "T" "tmpl" "TEXT" none [] []]

/-- C3: for an INSTANCE node processed with includeFullInstanceData = false:
with zero overrides the emitted node has no children field; with at least one
override whose target resolves to child id X, the emitted children include
the (visible, filter-passing) child with id X and retain any child that
itself has children, while every emitted child matches an override target or
has children of its own — so non-overridden childless children are
excluded. -/
theorem c3_instance_pruning :
    (∀ n ext d p opts g, n.type = "INSTANCE" →
      opts.includeFullInstanceData.getD false = false →
      n.overrides = [] → shouldProcessNode n opts = true →
      ∃ r g1, processNodeWithExtractors n ext d p opts g = .ok (some r, g1) ∧
        r.children = none) ∧
    (∀ n ext d p opts g r g2 targets x c, n.type = "INSTANCE" →
      opts.includeFullInstanceData.getD false = false →
      n.overrides ≠ [] → getOverrideTargets n.overrides = .ok targets →
      (∀ m ∈ opts.maxDepth, d < m) →
      x ∈ targets → c ∈ n.children → c.id = x →
      shouldProcessNode c opts = true →
      processNodeWithExtractors n ext d p opts g = .ok (some r, g2) →
      ∃ rs, r.children = some rs ∧ ∃ s ∈ rs, s.id = x) ∧
    (∀ n ext d p opts g r g2 targets c, n.type = "INSTANCE" →
      opts.includeFullInstanceData.getD false = false →
      n.overrides ≠ [] → getOverrideTargets n.overrides = .ok targets →
      (∀ m ∈ opts.maxDepth, d < m) →
      c ∈ n.children → c.children ≠ [] →
      shouldProcessNode c opts = true →
      processNodeWithExtractors n ext d p opts g = .ok (some r, g2) →
      ∃ rs, r.children = some rs ∧ ∃ s ∈ rs, s.id = c.id) ∧
    (∀ n ext d p opts g r g2 targets, n.type = "INSTANCE" →
      opts.includeFullInstanceData.getD false = false →
      n.overrides ≠ [] → getOverrideTargets n.overrides = .ok targets →
      processNodeWithExtractors n ext d p opts g = .ok (some r, g2) →
      ∀ rs, r.children = some rs → ∀ s ∈ rs, ∃ c ∈ n.children, s.id = c.id ∧
        (targets.contains c.id = true ∨ c.children ≠ [])) := by
  refine ⟨?_, ?_, ?_, ?_⟩
  · intro n ext d p opts g hT hF hO hsp
    exact processNode_instance_no_overrides n ext d p opts g hT hF hO hsp
  · intro n ext d p opts g r g2 targets x c hT hF hO hG hDepth hx hc hcid hspc h
    have hkeep : instanceChildFilter targets c = true := by
      simp [instanceChildFilter, hcid, hx]
    obtain ⟨rs, hch, s, hs, hsid⟩ := processNode_instance_child_included n ext
      d p opts g r g2 targets c hT hF hO hG hDepth hc hkeep hspc h
    exact ⟨rs, hch, s, hs, by rw [hsid, hcid]⟩
  · intro n ext d p opts g r g2 targets c hT hF hO hG hDepth hc hcc hspc h
    have hkeep : instanceChildFilter targets c = true := by
      have : c.children.isEmpty = false := by
        cases hcv : c.children with
        | nil => exact absurd hcv hcc
        | cons a b => rfl
      simp [instanceChildFilter, this]
    exact processNode_instance_child_included n ext d p opts g r g2 targets c
      hT hF hO hG hDepth hc hkeep hspc h
  · intro n ext d p opts g r g2 targets hT hF hO hG h
    exact processNode_instance_children_sound n ext d p opts g r g2 targets
      hT hF hO hG h

/-- The simplified node the sample instance is expected to produce: the
overridden child X is kept, the unrelated leaf Y is dropped, and the
container Z is kept with its own child. -/
def sampleInstanceOut : SimplifiedNode :=
  .mk "I1" "widget" "INSTANCE" []
    (some [.mk "X" "over" "TEXT" [] none,
           .mk "Z" "cont" "FRAME" [] (some [.mk "W" "w" "TEXT" [] none])])

/-- C3 witness at a concrete instance: zero overrides gives no children
field; the overridden child X is included; the non-overridden container Z is
retained; and every emitted child matches a target or has children (so the
leaf Y is excluded). -/
theorem c3_instance_pruning_witness :
    (∃ r g1, processNodeWithExtractors sampleInstanceNoOverrides [] 0 none {}
        [] = .ok (some r, g1) ∧ r.children = none) ∧
    (∃ rs, sampleInstanceOut.children = some rs ∧ ∃ s ∈ rs, s.id = "X") ∧
    (∃ rs, sampleInstanceOut.children = some rs ∧ ∃ s ∈ rs,
      s.id = (RawNode.mk "Z" "cont" "FRAME" none []
        [.mk "W" "w" "TEXT" none [] []]).id) ∧
    (∀ rs, sampleInstanceOut.children = some rs → ∀ s ∈ rs,
      ∃ c ∈ sampleInstance.children, s.id = c.id ∧
        (["X"].contains c.id = true ∨ c.children ≠ [])) := by
  have hG : getOverrideTargets sampleInstance.overrides = .ok ["X"] := rfl
  have hX : processNodeWithExtractors (RawNode.mk "X" "over" "TEXT" none [] [])
      [] 1 (some sampleInstance) {} [] =
      .ok (some (SimplifiedNode.mk "X" "over" "TEXT" [] none), []) := by
    rw [processNode_leaf_eval (RawNode.mk "X" "over" "TEXT" none [] []) [] 1
      (some sampleInstance) {} [] rfl rfl]
    rfl
  have hW : processNodeWithExtractors (RawNode.mk "W" "w" "TEXT" none [] [])
      [] 2 (some (RawNode.mk "Z" "cont" "FRAME" none []
        [RawNode.mk "W" "w" "TEXT" none [] []])) {} [] =
      .ok (some (SimplifiedNode.mk "W" "w" "TEXT" [] none), []) := by
    rw [processNode_leaf_eval (RawNode.mk "W" "w" "TEXT" none [] []) [] 2
      (some (RawNode.mk "Z" "cont" "FRAME" none []
        [RawNode.mk "W" "w" "TEXT" none [] []])) {} [] rfl rfl]
    rfl
  have hclW : processChildrenList [RawNode.mk "W" "w" "TEXT" none [] []]
      (fun _ => true) [] 2 (some (RawNode.mk "Z" "cont" "FRAME" none []
        [RawNode.mk "W" "w" "TEXT" none [] []])) {} [] =
      .ok ([SimplifiedNode.mk "W" "w" "TEXT" [] none], []) :=
    processChildrenList_step_some (RawNode.mk "W" "w" "TEXT" none [] []) []
      (fun _ => true) [] 2 (some (RawNode.mk "Z" "cont" "FRAME" none []
        [RawNode.mk "W" "w" "TEXT" none [] []])) {} []
      (SimplifiedNode.mk "W" "w" "TEXT" [] none) [] [] [] rfl hW
      (processChildrenList_nil_eq (fun _ => true) [] 2
        (some (RawNode.mk "Z" "cont" "FRAME" none []
          [RawNode.mk "W" "w" "TEXT" none [] []])) {} [])
  have hZ : processNodeWithExtractors (RawNode.mk "Z" "cont" "FRAME" none []
      [RawNode.mk "W" "w" "TEXT" none [] []]) [] 1 (some sampleInstance) {} []
      = .ok (some (SimplifiedNode.mk "Z" "cont" "FRAME" []
        (some [SimplifiedNode.mk "W" "w" "TEXT" [] none])), []) := by
    rw [processNode_node_eval (RawNode.mk "Z" "cont" "FRAME" none []
      [RawNode.mk "W" "w" "TEXT" none [] []]) [] 1 (some sampleInstance) {} []
      (fun _ => true) [SimplifiedNode.mk "W" "w" "TEXT" [] none] []
      rfl rfl rfl rfl hclW]
    rfl
  have hclYZ : processChildrenList [RawNode.mk "Y" "leaf" "TEXT" none [] [],
      RawNode.mk "Z" "cont" "FRAME" none []
        [RawNode.mk "W" "w" "TEXT" none [] []]]
      (instanceChildFilter ["X"]) [] 1 (some sampleInstance) {} [] =
      .ok ([SimplifiedNode.mk "Z" "cont" "FRAME" []
        (some [SimplifiedNode.mk "W" "w" "TEXT" [] none])], []) := by
    rw [processChildrenList_step_skip (RawNode.mk "Y" "leaf" "TEXT" none [] [])
      [RawNode.mk "Z" "cont" "FRAME" none []
        [RawNode.mk "W" "w" "TEXT" none [] []]]
      (instanceChildFilter ["X"]) [] 1 (some sampleInstance) {} [] rfl]
    exact processChildrenList_step_some (RawNode.mk "Z" "cont" "FRAME" none []
      [RawNode.mk "W" "w" "TEXT" none [] []]) [] (instanceChildFilter ["X"])
      [] 1 (some sampleInstance) {} []
      (SimplifiedNode.mk "Z" "cont" "FRAME" []
        (some [SimplifiedNode.mk "W" "w" "TEXT" [] none])) [] [] [] rfl hZ
      (processChildrenList_nil_eq (instanceChildFilter ["X"]) [] 1
        (some sampleInstance) {} [])
  have hclI : processChildrenList sampleInstance.children
      (instanceChildFilter ["X"]) [] 1 (some sampleInstance) {} [] =
      .ok ([SimplifiedNode.mk "X" "over" "TEXT" [] none,
        SimplifiedNode.mk "Z" "cont" "FRAME" []
          (some [SimplifiedNode.mk "W" "w" "TEXT" [] none])], []) :=
    processChildrenList_step_some (RawNode.mk "X" "over" "TEXT" none [] [])
      [RawNode.mk "Y" "leaf" "TEXT" none [] [],
       RawNode.mk "Z" "cont" "FRAME" none []
         [RawNode.mk "W" "w" "TEXT" none [] []]]
      (instanceChildFilter ["X"]) [] 1 (some sampleInstance) {} []
      (SimplifiedNode.mk "X" "over" "TEXT" [] none) []
      [SimplifiedNode.mk "Z" "cont" "FRAME" []
        (some [SimplifiedNode.mk "W" "w" "TEXT" [] none])] [] rfl hX hclYZ
  have hrun : processNodeWithExtractors sampleInstance [] 0 none {} [] =
      .ok (some sampleInstanceOut, []) := by
    rw [processNode_node_eval sampleInstance [] 0 none {} []
      (instanceChildFilter ["X"])
      [SimplifiedNode.mk "X" "over" "TEXT" [] none,
       SimplifiedNode.mk "Z" "cont" "FRAME" []
         (some [SimplifiedNode.mk "W" "w" "TEXT" [] none])] []
      rfl rfl rfl rfl hclI]
    rfl
  refine ⟨?_, ?_, ?_, ?_⟩
  · exact c3_instance_pruning.1 sampleInstanceNoOverrides [] 0 none {} [] rfl
      rfl rfl rfl
  · exact c3_instance_pruning.2.1 sampleInstance [] 0 none {} []
      sampleInstanceOut [] ["X"] "X" (.mk "X" "over" "TEXT" none [] []) rfl
      rfl (by simp [sampleInstance]) hG (by simp) (by simp)
      (by simp [sampleInstance]) rfl rfl hrun
  · exact c3_instance_pruning.2.2.1 sampleInstance [] 0 none {} []
      sampleInstanceOut [] ["X"]
      (.mk "Z" "cont" "FRAME" none [] [.mk "W" "w" "TEXT" none [] []]) rfl
      rfl (by simp [sampleInstance]) hG (by simp) (by simp [sampleInstance])
      (by simp) rfl hrun
  · exact fun rs hrs s hs =>
      c3_instance_pruning.2.2.2 sampleInstance [] 0 none {} []
        sampleInstanceOut [] ["X"] rfl rfl (by simp [sampleInstance]) hG hrun
        rs hrs s hs

/-- C4: the override target identifier is computed from the override's id
string exactly as claimed: if the id contains the separator character, the
second field of the split on the separator is used as the target child id;
otherwise the raw id string is used unchanged; and the engine's override map
applies exactly this rule to every override that carries an id. -/
theorem c4_override_target_rule :
    (∀ oid : String, oid.data.contains ';' = true →
      overrideTargetId oid =
        ((splitOnChar ';' oid.data).map String.mk).getD 1 "") ∧
    (∀ oid : String, oid.data.contains ';' = false →
      overrideTargetId oid = oid) ∧
    (∀ os : List Override, (∀ o ∈ os, o.id ≠ none) →
      getOverrideTargets os =
        .ok (os.map fun o => overrideTargetId (o.id.getD ""))) := by
  refine ⟨?_, ?_, ?_⟩
  · intro oid h
    simp only [overrideTargetId]
    rw [if_pos h]
  · intro oid h
    simp only [overrideTargetId]
    rw [if_neg (by rw [h]; simp)]
  · intro os h
    induction os with
    | nil => simp [getOverrideTargets]
    | cons o rest ih =>
      cases ho : o.id with
      | none => exact absurd ho (h o (List.mem_cons_self o rest))
      | some oid =>
        have hrest := ih (fun o1 ho1 => h o1 (List.mem_cons_of_mem o ho1))
        simp [getOverrideTargets, ho, hrest]

/-- C4 witness on the id format of the source comment and on a separator-free
id. -/
theorem c4_override_target_rule_witness :
    overrideTargetId "I6317:6851;6465:24096" =
      ((splitOnChar ';' "I6317:6851;6465:24096".data).map String.mk).getD 1 "" ∧
    overrideTargetId "12:34" = "12:34" ∧
    getOverrideTargets [Override.mk (some "I6317:6851;6465:24096")] =
      .ok [overrideTargetId "I6317:6851;6465:24096"] := by
  refine ⟨c4_override_target_rule.1 _ (by decide),
    c4_override_target_rule.2.1 _ (by decide), ?_⟩
  have h := c4_override_target_rule.2.2
    [Override.mk (some "I6317:6851;6465:24096")] (by simp)
  simpa using h

/-- Sample vector node. -/
def sampleVector : RawNode := .mk "v1" "vec" "VECTOR" none [] []

/-- C5: every retained node's output carries the base fields id, name and
kind, for every configured extractor list (including the empty one): the
engine sets them from the raw node, replacing a VECTOR kind by the IMAGE-SVG
tag and carrying every other kind through unchanged. -/
theorem c5_base_fields (n : RawNode) (ext : List ExtractorFn) (d : Nat)
    (p : Option RawNode) (opts : TraversalOptions) (g : Styles)
    (r : SimplifiedNode) (g2 : Styles)
    (h : processNodeWithExtractors n ext d p opts g = .ok (some r, g2)) :
    r.id = n.id ∧ r.name = n.name ∧
    r.type = (if n.type == "VECTOR" then "IMAGE-SVG" else n.type) :=
  ⟨(processNode_fields n ext d p opts g r g2 h).1,
   (processNode_fields n ext d p opts g r g2 h).2.1,
   (processNode_fields n ext d p opts g r g2 h).2.2.1⟩

/-- C5 witness: a VECTOR node is emitted with base fields and the IMAGE-SVG
kind. -/
theorem c5_base_fields_witness :
    (SimplifiedNode.mk "v1" "vec" "IMAGE-SVG" [] none).id = sampleVector.id ∧
    (SimplifiedNode.mk "v1" "vec" "IMAGE-SVG" [] none).name = sampleVector.name ∧
    (SimplifiedNode.mk "v1" "vec" "IMAGE-SVG" [] none).type =
      (if sampleVector.type == "VECTOR" then "IMAGE-SVG" else sampleVector.type) :=
  c5_base_fields sampleVector [] 0 none {} []
    (SimplifiedNode.mk "v1" "vec" "IMAGE-SVG" [] none) []
    (by simp [sampleVector, processNodeWithExtractors, shouldProcessNode,
      shouldTraverseChildren, isVisible, applyExtractors, baseNode])

/-- C6: for every retained node, if the visibility gate, the custom filter,
the depth check and instance pruning leave no children, the emitted node has
no children field at all: an empty children sequence is never emitted. -/
theorem c6_no_empty_children_field (n : RawNode) (ext : List ExtractorFn)
    (d : Nat) (p : Option RawNode) (opts : TraversalOptions) (g : Styles)
    (r : SimplifiedNode) (g2 : Styles)
    (h : processNodeWithExtractors n ext d p opts g = .ok (some r, g2)) :
    r.children ≠ some [] :=
  (processNode_fields n ext d p opts g r g2 h).2.2.2

/-- C6 witness: a root whose only child is invisible is emitted with no
children field (and in particular not with an empty children sequence). -/
theorem c6_no_empty_children_field_witness :
    (SimplifiedNode.mk "1" "root" "FRAME" [] none).children ≠ some [] :=
  c6_no_empty_children_field sampleRoot [] 0 none {} []
    (SimplifiedNode.mk "1" "root" "FRAME" [] none) []
    (by simp [sampleRoot, sampleHidden, processNodeWithExtractors,
      processChildrenList, shouldProcessNode, shouldTraverseChildren,
      childKeepFilter, isVisible, applyExtractors, baseNode])

/-- Instance node whose single override entry lacks an id string, with a
nonempty children array. -/
def sampleBadInstance : RawNode :=
  .mk "I9" "bad" "INSTANCE" none [Override.mk none]
    [.mk "K" "kid" "TEXT" none [] []]

/-- C7 (the code violates the claim): on an INSTANCE node whose overrides
entries lack an id string, the engine itself throws a TypeError while
computing the override targets — the pass aborts instead of omitting the
contribution, although the configured extractor list (here empty) never
throws. -/
theorem c7_engine_throws_on_missing_override_id :
    extractFromDesign [sampleBadInstance] [] {} [] =
      .error "TypeError: cannot read id of override entry" := by
  simp [sampleBadInstance, extractFromDesign, processChildrenList,
    processNodeWithExtractors, shouldProcessNode, shouldTraverseChildren,
    childKeepFilter, isVisible, applyExtractors, baseNode, getOverrideTargets]

/-- C8: one pass of extractFromDesign is a pure function of its inputs:
running it twice on the same RawNode list with the same (pure, as modelled)
extractor list and options, each run starting from a fresh empty style table,
yields identical simplified trees and identical style-table contents. -/
theorem c8_identical_runs (nodes : List RawNode) (ext : List ExtractorFn)
    (opts : TraversalOptions) (g1 g2 : Styles)
    (h1 : g1 = []) (h2 : g2 = []) :
    extractFromDesign nodes ext opts g1 = extractFromDesign nodes ext opts g2 := by
  rw [h1, h2]

/-- C8 witness: two concrete runs from fresh empty tables coincide. -/
theorem c8_identical_runs_witness :
    extractFromDesign [sampleChain] [] {} [] =
      extractFromDesign [sampleChain] [] {} [] :=
  c8_identical_runs [sampleChain] [] {} [] [] rfl rfl

/-- C10: withRetry consults the operation only on attempts 1..maxAttempts
(3 under the default configuration); it returns the first successful result;
a failure whose categorized error is non-retryable or whose type is not in
the configured retryableErrors list is thrown at once, with no further
attempts; and when every attempt fails retryably the error of the last
attempt is thrown. -/
theorem c10_withRetry_contract :
    DEFAULT_RETRY_CONFIG.maxAttempts = 3 ∧
    (mergeRetryConfig {}).maxAttempts = 3 ∧
    (∀ (α : Type) (op1 op2 : Nat → Except FigmaContextError α)
      (cfgd : RetryConfigDelta),
      (∀ i, 1 ≤ i → i ≤ (mergeRetryConfig cfgd).maxAttempts → op1 i = op2 i) →
      withRetry op1 cfgd = withRetry op2 cfgd) ∧
    (∀ (α : Type) (op : Nat → Except FigmaContextError α)
      (cfgd : RetryConfigDelta) (k : Nat) (v : α),
      1 ≤ k → k ≤ (mergeRetryConfig cfgd).maxAttempts → op k = .ok v →
      (∀ i, 1 ≤ i → i < k → ∃ e, op i = .error e ∧ e.retryable = true ∧
        (mergeRetryConfig cfgd).retryableErrors.contains e.type = true) →
      withRetry op cfgd = .ok v) ∧
    (∀ (α : Type) (op : Nat → Except FigmaContextError α)
      (cfgd : RetryConfigDelta) (j : Nat) (e : FigmaContextError),
      1 ≤ j → j ≤ (mergeRetryConfig cfgd).maxAttempts → op j = .error e →
      (e.retryable = false ∨
        (mergeRetryConfig cfgd).retryableErrors.contains e.type = false) →
      (∀ i, 1 ≤ i → i < j → ∃ e0, op i = .error e0 ∧ e0.retryable = true ∧
        (mergeRetryConfig cfgd).retryableErrors.contains e0.type = true) →
      withRetry op cfgd = .error (some e)) ∧
    (∀ (α : Type) (op : Nat → Except FigmaContextError α)
      (cfgd : RetryConfigDelta) (err : Nat → FigmaContextError),
      1 ≤ (mergeRetryConfig cfgd).maxAttempts →
      (∀ i, 1 ≤ i → i ≤ (mergeRetryConfig cfgd).maxAttempts →
        op i = .error (err i) ∧ (err i).retryable = true ∧
        (mergeRetryConfig cfgd).retryableErrors.contains (err i).type = true) →
      withRetry op cfgd =
        .error (some (err (mergeRetryConfig cfgd).maxAttempts))) := by
  refine ⟨rfl, rfl, ?_, ?_, ?_, ?_⟩
  · intro α op1 op2 cfgd hagree
    exact withRetryGo_congr op1 op2 (mergeRetryConfig cfgd)
      (mergeRetryConfig cfgd).maxAttempts 1 none (by omega) hagree
  · intro α op cfgd k v h1 hk hok hfail
    exact withRetryGo_first_success op (mergeRetryConfig cfgd) k v hk hok k 1
      none (by omega) h1 hfail
  · intro α op cfgd j e h1 hj herr hbad hfail
    have hstop : (decide (j < (mergeRetryConfig cfgd).maxAttempts) &&
        e.retryable &&
        (mergeRetryConfig cfgd).retryableErrors.contains e.type) = false := by
      rcases hbad with hb | hb
      · rw [hb]
        simp
      · rw [hb]
        simp
    exact withRetryGo_stops op (mergeRetryConfig cfgd) j e hj herr hstop j 1
      none (by omega) h1 hfail
  · intro α op cfgd err hM hall
    have herr := (hall (mergeRetryConfig cfgd).maxAttempts hM le_rfl).1
    have hstop : (decide ((mergeRetryConfig cfgd).maxAttempts <
        (mergeRetryConfig cfgd).maxAttempts) &&
        (err (mergeRetryConfig cfgd).maxAttempts).retryable &&
        (mergeRetryConfig cfgd).retryableErrors.contains
          (err (mergeRetryConfig cfgd).maxAttempts).type) = false := by
      simp
    refine withRetryGo_stops op (mergeRetryConfig cfgd)
      (mergeRetryConfig cfgd).maxAttempts
      (err (mergeRetryConfig cfgd).maxAttempts) le_rfl herr hstop
      (mergeRetryConfig cfgd).maxAttempts 1 none (by omega) hM ?_
    intro i hi1 hi2
    obtain ⟨h1, h2, h3⟩ := hall i hi1 (by omega)
    exact ⟨err i, h1, h2, h3⟩

/-- Operation for the retry witness: attempt 1 fails with a retryable network
error, attempt 2 succeeds. -/
def retryOpSample : Nat → Except FigmaContextError Nat :=
  fun i => if i = 1 then .error (FigmaContextError.mk .NETWORK_ERROR true)
    else .ok 7

/-- C10 witness: under the default configuration the sample operation retries
once and returns the first successful result. -/
theorem c10_withRetry_contract_witness :
    withRetry retryOpSample {} = .ok 7 := by
  apply c10_withRetry_contract.2.2.2.1 Nat retryOpSample {} 2 7 (by omega)
    (by decide) rfl
  intro i hi1 hi2
  have hi : i = 1 := by omega
  subst hi
  exact ⟨FigmaContextError.mk .NETWORK_ERROR true, rfl, rfl, by decide⟩
